import Mathlib

/-!
Shallow embedding of the openreil-rs wrapper (src/lib.rs): the data model for
REIL instructions and operands, the composite address computation, the operand
and name accessors, and the session construction / teardown lifecycle.
Machine integers are modelled as `Nat` with explicit `% 2 ^ w` at the points
where the Rust code casts or where u64 arithmetic wraps.
-/

/-- Architecture of the binary code (the wrapper's `ReilArch` enum). -/
inductive ReilArch
  | X86
  | ARM
deriving DecidableEq, Repr

/-- Engine architecture identifier (`reil_arch_t` from the C API). -/
inductive reil_arch_t
  | ARCH_X86
  | ARCH_ARM
deriving DecidableEq, Repr

/-- Operand type tag (`reil_type_t` from the C API). -/
inductive reil_type_t
  | A_NONE
  | A_REG
  | A_TEMP
  | A_CONST
  | A_LOC
deriving DecidableEq, Repr

/-- Operand size (`reil_size_t` from the C API). -/
inductive reil_size_t
  | U1
  | U8
  | U16
  | U32
  | U64
deriving DecidableEq, Repr

/-- REIL opcode (`reil_op_t` from the C API); its semantics are owned by the
engine and are not reinterpreted by the wrapper. -/
inductive reil_op_t
  | I_NONE
  | I_UNK
  | I_JCC
  | I_STR
  | I_STM
  | I_LDM
  | I_ADD
  | I_SUB
  | I_NEG
  | I_MUL
  | I_DIV
  | I_MOD
  | I_SMUL
  | I_SDIV
  | I_SMOD
  | I_SHL
  | I_SHR
  | I_AND
  | I_OR
  | I_XOR
  | I_NOT
  | I_EQ
  | I_LT
deriving DecidableEq, Repr

/-- One REIL operand record (`reil_arg_t`): type tag, size, 64-bit value field
and a fixed-capacity zero-padded name buffer, modelled as its list of byte
values. -/
structure reil_arg_t where
  type_ : reil_type_t
  size : reil_size_t
  val : Nat
  name : List Nat
deriving DecidableEq, Repr

/-- Raw native-instruction information (`reil_raw_t`): the native address
(`reil_addr_t`, 64-bit) and the byte length of the native instruction. -/
structure reil_raw_t where
  addr : Nat
  size : Nat
deriving DecidableEq, Repr

/-- One REIL instruction record (`reil_inst_t`): native info, the engine's
intra-expansion counter `inum`, the opcode and the three operand slots. -/
structure reil_inst_t where
  raw_info : reil_raw_t
  inum : Nat
  op : reil_op_t
  a : reil_arg_t
  b : reil_arg_t
  c : reil_arg_t
deriving DecidableEq, Repr

/-- ReilInst::raw_address — `self.raw_info.addr as u64`. -/
def ReilInst.raw_address (i : reil_inst_t) : Nat :=
  i.raw_info.addr % 2 ^ 64

/-- ReilInst::reil_offset — `self.inum as u8`, a truncating cast. -/
def ReilInst.reil_offset (i : reil_inst_t) : Nat :=
  i.inum % 2 ^ 8

/-- ReilInst::address — `(self.raw_address() << 8) | self.reil_offset()` in
u64 arithmetic, where the shift wraps modulo `2 ^ 64`. -/
def ReilInst.address (i : reil_inst_t) : Nat :=
  ((ReilInst.raw_address i <<< 8) % 2 ^ 64) ||| ReilInst.reil_offset i

/-- ReilInst::opcode — returns the `op` field. -/
def ReilInst.opcode (i : reil_inst_t) : reil_op_t :=
  i.op

/-- ReilInst::first_operand — absent when slot `a` is typed `A_NONE`,
otherwise the slot's argument by value. -/
def ReilInst.first_operand (i : reil_inst_t) : Option reil_arg_t :=
  match i.a.type_ with
  | .A_NONE => none
  | _ => some i.a

/-- ReilInst::second_operand — absent when slot `b` is typed `A_NONE`,
otherwise the slot's argument by value. -/
def ReilInst.second_operand (i : reil_inst_t) : Option reil_arg_t :=
  match i.b.type_ with
  | .A_NONE => none
  | _ => some i.b

/-- ReilInst::third_operand — absent when slot `c` is typed `A_NONE`,
otherwise the slot's argument by value. -/
def ReilInst.third_operand (i : reil_inst_t) : Option reil_arg_t :=
  match i.c.type_ with
  | .A_NONE => none
  | _ => some i.c

/-- Modelled from the spec: AddressCodec.encode, the raw address shifted left
8 bits, ORed with the offset, as a 64-bit unsigned value. The repository only
exposes this computation through `ReilInst::address`; the standalone codec is
the spec's description of it. -/
def AddressCodec.encode (r o : Nat) : Nat :=
  ((r <<< 8) ||| o) % 2 ^ 64

/-- Modelled from the spec: AddressCodec.decode_offset, the low 8 bits of a
composite address. -/
def AddressCodec.decode_offset (comp : Nat) : Nat :=
  comp % 2 ^ 8

/-- Modelled from the spec: AddressCodec.decode_raw, the composite address
with its low 8 bits dropped. -/
def AddressCodec.decode_raw (comp : Nat) : Nat :=
  comp >>> 8

/-- Bits of a number below `2 ^ n` vanish at positions `n` and above. -/
theorem testBit_false_of_lt {o n i : Nat} (ho : o < 2 ^ n) (hi : n ≤ i) :
    o.testBit i = false :=
  Nat.testBit_lt_two_pow (lt_of_lt_of_le ho (Nat.pow_le_pow_right (by norm_num) hi))

/-- Low 8 bits of a shift-or composite are the offset. -/
theorem shiftLeft_lor_mod_eight (r o : Nat) (ho : o < 2 ^ 8) :
    ((r <<< 8) ||| o) % 2 ^ 8 = o := by
  apply Nat.eq_of_testBit_eq
  intro i
  rw [Nat.testBit_mod_two_pow, Nat.testBit_lor, Nat.testBit_shiftLeft]
  by_cases hi : i < 8
  · have h8 : ¬ i ≥ 8 := by omega
    simp [hi, h8]
  · have hfalse : o.testBit i = false := testBit_false_of_lt ho (by omega)
    simp [hi, hfalse]

/-- High bits of the truncated shift-or composite recover a raw address that
fits in 56 bits. -/
theorem shiftLeft_lor_mod_shiftRight (r o : Nat) (ho : o < 2 ^ 8) (hr : r < 2 ^ 56) :
    (((r <<< 8) ||| o) % 2 ^ 64) >>> 8 = r := by
  apply Nat.eq_of_testBit_eq
  intro i
  rw [Nat.testBit_shiftRight, Nat.testBit_mod_two_pow, Nat.testBit_lor,
    Nat.testBit_shiftLeft]
  have hocont : o.testBit (8 + i) = false := testBit_false_of_lt ho (by omega)
  by_cases hi : i < 56
  · have h1 : 8 + i < 64 := by omega
    have h2 : 8 + i ≥ 8 := by omega
    simp [h1, h2, hocont, Nat.add_sub_cancel_left]
  · have h1 : ¬ 8 + i < 64 := by omega
    have h2 : r.testBit i = false := testBit_false_of_lt hr (by omega)
    simp [h1, h2]

/-- Truncating before or after ORing in a small offset agrees. -/
theorem mod_lor_eq_lor_mod (x o : Nat) (ho : o < 2 ^ 64) :
    ((x % 2 ^ 64) ||| o) = (x ||| o) % 2 ^ 64 := by
  apply Nat.eq_of_testBit_eq
  intro i
  rw [Nat.testBit_lor, Nat.testBit_mod_two_pow, Nat.testBit_mod_two_pow,
    Nat.testBit_lor]
  by_cases hi : i < 64
  · simp [hi]
  · have hfalse : o.testBit i = false := testBit_false_of_lt ho (by omega)
    simp [hi, hfalse]

/-- The REIL offset accessor is bounded by the 8-bit cast. -/
theorem reil_offset_lt (i : reil_inst_t) : ReilInst.reil_offset i < 2 ^ 8 :=
  Nat.mod_lt _ (by norm_num)

/-- Shared helper: the composite address computed by `ReilInst::address` is
exactly `AddressCodec.encode` of the native address and the REIL offset. -/
theorem address_eq_encode_helper (i : reil_inst_t) :
    ReilInst.address i
      = AddressCodec.encode (ReilInst.raw_address i) (ReilInst.reil_offset i) := by
  unfold ReilInst.address AddressCodec.encode
  exact mod_lor_eq_lor_mod _ _ (lt_trans (reil_offset_lt i) (by norm_num))

/-- C2: for every instruction record, `address()` returns the 64-bit composite
computed exactly as `(raw_address() << 8) | reil_offset()`, i.e. the native
address shifted left 8 bits ORed with the intra-expansion offset. -/
theorem address_is_composite (i : reil_inst_t) :
    ReilInst.address i
      = AddressCodec.encode (ReilInst.raw_address i) (ReilInst.reil_offset i) :=
  address_eq_encode_helper i

/-- C1 counterexample: at the 64-bit raw address `2 ^ 56` (with offset `0`) the
high bits of the composite are `0`, not the raw address, so the encoding is not
lossless over all 64-bit raw addresses. -/
theorem encode_not_lossless_on_64_bits :
    2 ^ 56 < 2 ^ 64
    ∧ AddressCodec.decode_raw (AddressCodec.encode (2 ^ 56) 0) = 0 := by
  constructor
  · norm_num
  · rfl

/-- C1 (amended): the composite encoding is lossless for raw addresses that fit
in 56 bits: the low 8 bits of `encode(r, o)` always equal `o`, and the high bits
equal `r` whenever `r < 2 ^ 56`; correspondingly, for every instruction record,
`reil_offset()` and, when `raw_address()` fits in 56 bits, `raw_address()` are
recoverable from `address()`. -/
theorem encode_lossless (r o : Nat) (ho : o < 2 ^ 8) :
    AddressCodec.decode_offset (AddressCodec.encode r o) = o
    ∧ (r < 2 ^ 56 → AddressCodec.decode_raw (AddressCodec.encode r o) = r)
    ∧ (∀ i : reil_inst_t,
        AddressCodec.decode_offset (ReilInst.address i) = ReilInst.reil_offset i
        ∧ (ReilInst.raw_address i < 2 ^ 56 →
            AddressCodec.decode_raw (ReilInst.address i) = ReilInst.raw_address i)) := by
  refine ⟨?_, ?_, ?_⟩
  · unfold AddressCodec.decode_offset AddressCodec.encode
    rw [Nat.mod_mod_of_dvd _ (pow_dvd_pow 2 (by norm_num))]
    exact shiftLeft_lor_mod_eight r o ho
  · intro hr
    unfold AddressCodec.decode_raw AddressCodec.encode
    exact shiftLeft_lor_mod_shiftRight r o ho hr
  · intro i
    rw [address_eq_encode_helper i]
    refine ⟨?_, ?_⟩
    · unfold AddressCodec.decode_offset AddressCodec.encode
      rw [Nat.mod_mod_of_dvd _ (pow_dvd_pow 2 (by norm_num))]
      exact shiftLeft_lor_mod_eight _ _ (reil_offset_lt i)
    · intro hr
      unfold AddressCodec.decode_raw AddressCodec.encode
      exact shiftLeft_lor_mod_shiftRight _ _ (reil_offset_lt i) hr

/-- Operand record with an empty slot, used as a concrete sample. -/
def sampleArgNone : reil_arg_t :=
  ⟨.A_NONE, .U1, 0, List.replicate 15 0⟩

/-- Concrete sample instruction: an `I_ADD` at native address 0x401000 with
`inum` 3 and empty operand slots. -/
def sampleInst : reil_inst_t :=
  ⟨⟨4198400, 2⟩, 3, .I_ADD, sampleArgNone, sampleArgNone, sampleArgNone⟩

/-- Witness for C1 (amended) at raw address 0x401000 and offset 5, and at the
sample instruction. -/
theorem encode_lossless_witness :
    AddressCodec.decode_offset (AddressCodec.encode 4198400 5) = 5
    ∧ AddressCodec.decode_raw (AddressCodec.encode 4198400 5) = 4198400
    ∧ AddressCodec.decode_raw (ReilInst.address sampleInst)
        = ReilInst.raw_address sampleInst :=
  ⟨(encode_lossless 4198400 5 (by norm_num)).1,
   (encode_lossless 4198400 5 (by norm_num)).2.1 (by norm_num),
   ((encode_lossless 4198400 5 (by norm_num)).2.2 sampleInst).2 (by decide)⟩

/-- C6: `reil_offset()` returns the engine's `inum` counter reduced to 8 bits:
the result is always bounded to 0..255 and equals the intra-expansion index
`inum` whenever that index is already below 256. -/
theorem reil_offset_is_inum_mod (i : reil_inst_t) :
    ReilInst.reil_offset i < 2 ^ 8
    ∧ (i.inum < 2 ^ 8 → ReilInst.reil_offset i = i.inum) := by
  refine ⟨reil_offset_lt i, fun h => Nat.mod_eq_of_lt h⟩

/-- Witness for C6 at the sample instruction, whose `inum` is 3. -/
theorem reil_offset_is_inum_mod_witness :
    ReilInst.reil_offset sampleInst = 3 :=
  (reil_offset_is_inum_mod sampleInst).2 (by decide)

/-- ReilArg::arg_type — returns the type tag. -/
def ReilArg.arg_type (a : reil_arg_t) : reil_type_t :=
  a.type_

/-- ReilArg::size — returns the size field. -/
def ReilArg.size (a : reil_arg_t) : reil_size_t :=
  a.size

/-- ReilArg::val — present exactly for CONST and LOCATION typed arguments,
returning `self.val as u64`; absent otherwise. -/
def ReilArg.val (a : reil_arg_t) : Option Nat :=
  match ReilArg.arg_type a with
  | .A_CONST | .A_LOC => some (a.val % 2 ^ 64)
  | _ => none

/-- Continuation byte test for UTF-8: bytes in 0x80..0xBF. -/
def utf8Cont (b : Nat) : Bool :=
  128 ≤ b && b < 192

/-- Decode a byte list as UTF-8 code points, validating exactly as Rust's
String::from_utf8 does: ASCII bytes stand alone, two-byte leads are 0xC2..0xDF,
three-byte leads 0xE0..0xEF excluding overlong and surrogate encodings, and
four-byte leads 0xF0..0xF4 bounded by U+10FFFF. The first argument is fuel and
is always instantiated with the list length. -/
def utf8DecodeAux : Nat → List Nat → Option (List Nat)
  | _, [] => some []
  | 0, _ :: _ => none
  | fuel + 1, b :: rest =>
    if b < 128 then
      (utf8DecodeAux fuel rest).map (fun cps => b :: cps)
    else if b < 194 then none
    else if b < 224 then
      match rest with
      | b1 :: rest1 =>
        if utf8Cont b1 then
          (utf8DecodeAux fuel rest1).map
            (fun cps => ((b - 192) * 64 + (b1 - 128)) :: cps)
        else none
      | [] => none
    else if b < 240 then
      match rest with
      | b1 :: b2 :: rest2 =>
        if utf8Cont b1 && utf8Cont b2
            && !(b == 224 && b1 < 160) && !(b == 237 && 160 ≤ b1) then
          (utf8DecodeAux fuel rest2).map
            (fun cps => ((b - 224) * 4096 + (b1 - 128) * 64 + (b2 - 128)) :: cps)
        else none
      | _ => none
    else if b < 245 then
      match rest with
      | b1 :: b2 :: b3 :: rest3 =>
        if utf8Cont b1 && utf8Cont b2 && utf8Cont b3
            && !(b == 240 && b1 < 144) && !(b == 244 && 144 ≤ b1) then
          (utf8DecodeAux fuel rest3).map
            (fun cps =>
              ((b - 240) * 262144 + (b1 - 128) * 4096
                + (b2 - 128) * 64 + (b3 - 128)) :: cps)
        else none
      | _ => none
    else none

/-- Decode a byte list as text the way String::from_utf8 does, the resulting
text represented by its list of code points; absent when invalid. -/
def utf8Decode (l : List Nat) : Option (List Nat) :=
  utf8DecodeAux l.length l

/-- ReilArg::name — absent for a NONE-typed argument; otherwise the buffer's
bytes up to (excluding) the first zero byte are decoded as UTF-8 text, invalid
bytes giving absence rather than a failure. -/
def ReilArg.name (a : reil_arg_t) : Option (List Nat) :=
  if ReilArg.arg_type a = .A_NONE then
    none
  else
    utf8Decode (a.name.takeWhile (fun b => b != 0))

/-- Filtering of the first operand slot, case by case on the type tag. -/
theorem first_operand_cases (i : reil_inst_t) :
    (ReilInst.first_operand i = none ↔ i.a.type_ = .A_NONE)
    ∧ (i.a.type_ ≠ .A_NONE → ReilInst.first_operand i = some i.a) := by
  cases h : i.a.type_ <;> simp [ReilInst.first_operand, h]

/-- Filtering of the second operand slot, case by case on the type tag. -/
theorem second_operand_cases (i : reil_inst_t) :
    (ReilInst.second_operand i = none ↔ i.b.type_ = .A_NONE)
    ∧ (i.b.type_ ≠ .A_NONE → ReilInst.second_operand i = some i.b) := by
  cases h : i.b.type_ <;> simp [ReilInst.second_operand, h]

/-- Filtering of the third operand slot, case by case on the type tag. -/
theorem third_operand_cases (i : reil_inst_t) :
    (ReilInst.third_operand i = none ↔ i.c.type_ = .A_NONE)
    ∧ (i.c.type_ ≠ .A_NONE → ReilInst.third_operand i = some i.c) := by
  cases h : i.c.type_ <;> simp [ReilInst.third_operand, h]

/-- C3: each operand accessor reports absent exactly when its slot's type tag
is NONE and otherwise returns the slot's argument by value; in particular all
three accessors report absent when all three slots are typed NONE. -/
theorem operands_filtered (i : reil_inst_t) :
    (ReilInst.first_operand i = none ↔ i.a.type_ = .A_NONE)
    ∧ (i.a.type_ ≠ .A_NONE → ReilInst.first_operand i = some i.a)
    ∧ (ReilInst.second_operand i = none ↔ i.b.type_ = .A_NONE)
    ∧ (i.b.type_ ≠ .A_NONE → ReilInst.second_operand i = some i.b)
    ∧ (ReilInst.third_operand i = none ↔ i.c.type_ = .A_NONE)
    ∧ (i.c.type_ ≠ .A_NONE → ReilInst.third_operand i = some i.c)
    ∧ (i.a.type_ = .A_NONE ∧ i.b.type_ = .A_NONE ∧ i.c.type_ = .A_NONE →
        ReilInst.first_operand i = none ∧ ReilInst.second_operand i = none
          ∧ ReilInst.third_operand i = none) :=
  ⟨(first_operand_cases i).1, (first_operand_cases i).2,
   (second_operand_cases i).1, (second_operand_cases i).2,
   (third_operand_cases i).1, (third_operand_cases i).2,
   fun h => ⟨(first_operand_cases i).1.mpr h.1,
     (second_operand_cases i).1.mpr h.2.1, (third_operand_cases i).1.mpr h.2.2⟩⟩

/-- Operand record carrying the constant 42, used as a concrete sample. -/
def sampleArgConst : reil_arg_t :=
  ⟨.A_CONST, .U32, 42, List.replicate 15 0⟩

/-- Concrete sample instruction with a CONST first slot and empty others. -/
def sampleInstConst : reil_inst_t :=
  ⟨⟨4198400, 2⟩, 0, .I_STR, sampleArgConst, sampleArgNone, sampleArgNone⟩

/-- Witness for C3 at the all-NONE sample instruction and at an instruction
with a CONST first slot. -/
theorem operands_filtered_witness :
    (ReilInst.first_operand sampleInst = none
      ∧ ReilInst.second_operand sampleInst = none
      ∧ ReilInst.third_operand sampleInst = none)
    ∧ ReilInst.first_operand sampleInstConst = some sampleArgConst :=
  ⟨(operands_filtered sampleInst).2.2.2.2.2.2 ⟨by decide, by decide, by decide⟩,
   (operands_filtered sampleInstConst).2.1 (by decide)⟩

/-- C4: `val()` is present exactly when the argument's type tag is CONST or
LOCATION, carrying the stored value as u64, and absent for every other tag
(including NONE). -/
theorem val_present_iff (a : reil_arg_t) :
    ((ReilArg.val a).isSome ↔ a.type_ = .A_CONST ∨ a.type_ = .A_LOC)
    ∧ (a.type_ = .A_CONST ∨ a.type_ = .A_LOC →
        ReilArg.val a = some (a.val % 2 ^ 64))
    ∧ (¬ (a.type_ = .A_CONST ∨ a.type_ = .A_LOC) → ReilArg.val a = none) := by
  cases h : a.type_ <;> simp [ReilArg.val, ReilArg.arg_type, h]

/-- Witness for C4: a CONST slot with value 42 reports a present 42, and a
NONE slot reports absence. -/
theorem val_present_iff_witness :
    ReilArg.val sampleArgConst = some 42 ∧ ReilArg.val sampleArgNone = none := by
  constructor
  · have h := (val_present_iff sampleArgConst).2.1 (Or.inl (by decide))
    simpa [sampleArgConst] using h
  · exact (val_present_iff sampleArgNone).2.2 (by decide)

/-- C10: for CONST or LOCATION typed arguments, `val()` returns the stored
64-bit value field unmodified and independent of the declared size field — it
is never masked or truncated to the operand's size, so a one-byte sized
argument may report a value above 255. -/
theorem val_not_masked (a : reil_arg_t) (hv : a.val < 2 ^ 64)
    (ht : a.type_ = .A_CONST ∨ a.type_ = .A_LOC) :
    ReilArg.val a = some a.val
    ∧ (∀ s : reil_size_t, ReilArg.val { a with size := s } = ReilArg.val a) := by
  constructor
  · rcases ht with h | h <;>
      simp [ReilArg.val, ReilArg.arg_type, h, Nat.mod_eq_of_lt hv] <;> omega
  · intro s
    cases h : a.type_ <;> simp [ReilArg.val, ReilArg.arg_type, h]

/-- Operand record declared one byte wide but carrying the value 300. -/
def sampleArgByteConst : reil_arg_t :=
  ⟨.A_CONST, .U8, 300, List.replicate 15 0⟩

/-- Witness for C10: the one-byte sized CONST argument with stored value 300
reports 300, above 255. -/
theorem val_not_masked_witness :
    ReilArg.val sampleArgByteConst = some 300 ∧ 255 < 300 :=
  ⟨(val_not_masked sampleArgByteConst (by decide) (Or.inl (by decide))).1,
   by norm_num⟩

/-- Operand record named "eax" with zero padding. -/
def sampleArgEax : reil_arg_t :=
  ⟨.A_REG, .U32, 0, [101, 97, 120] ++ List.replicate 12 0⟩

/-- Operand record with an all-zero name buffer. -/
def sampleArgZeroName : reil_arg_t :=
  ⟨.A_REG, .U32, 0, List.replicate 15 0⟩

/-- Operand record whose name buffer starts with an invalid byte 0xFF. -/
def sampleArgBadName : reil_arg_t :=
  ⟨.A_REG, .U32, 0, 255 :: List.replicate 14 0⟩

/-- C5: `name()` is absent for NONE-typed arguments regardless of the buffer's
bytes; otherwise it decodes the buffer up to but excluding the first zero byte,
reporting absence rather than failing on invalid text. The buffer "eax" with
zero padding yields the text "eax" (code points 101, 97, 120), an all-zero
buffer yields the empty text, and an invalid leading byte yields absence. -/
theorem name_decoding (a : reil_arg_t) :
    (a.type_ = .A_NONE → ReilArg.name a = none)
    ∧ (a.type_ ≠ .A_NONE →
        ReilArg.name a = utf8Decode (a.name.takeWhile (fun b => b != 0)))
    ∧ ReilArg.name sampleArgEax = some [101, 97, 120]
    ∧ ReilArg.name sampleArgZeroName = some []
    ∧ ReilArg.name sampleArgBadName = none := by
  refine ⟨fun h => ?_, fun h => ?_, by decide, by decide, by decide⟩
  · simp [ReilArg.name, ReilArg.arg_type, h]
  · simp [ReilArg.name, ReilArg.arg_type, h]

/-- Witness for C5: absence at a NONE-typed sample and the "eax" decoding at a
REG-typed sample. -/
theorem name_decoding_witness :
    ReilArg.name sampleArgNone = none
    ∧ ReilArg.name sampleArgEax = some [101, 97, 120] :=
  ⟨(name_decoding sampleArgNone).1 (by decide),
   (name_decoding sampleArgEax).2.2.1⟩

/-- Keeping bytes while they are nonzero keeps a zero-free list whole. -/
theorem takeWhile_ne_zero_eq_self (l : List Nat) (h : ∀ b ∈ l, b ≠ 0) :
    l.takeWhile (fun b => b != 0) = l := by
  induction l with
  | nil => rfl
  | cons x xs ih =>
    have hx : x ≠ 0 := h x (List.mem_cons_self x xs)
    have hxs : ∀ b ∈ xs, b ≠ 0 := fun b hb => h b (List.mem_cons_of_mem x hb)
    simp [List.takeWhile_cons, hx, ih hxs]

/-- C9: when the name buffer contains no zero byte at all, `name()` is still
total and decodes the entire fixed-capacity buffer — all of its bytes — rather
than failing or reading past its end. -/
theorem name_no_zero_whole_buffer (a : reil_arg_t) (ht : a.type_ ≠ .A_NONE)
    (h : ∀ b ∈ a.name, b ≠ 0) :
    ReilArg.name a = utf8Decode a.name := by
  simp [ReilArg.name, ReilArg.arg_type, ht, takeWhile_ne_zero_eq_self a.name h]

/-- Operand record whose 15-byte name buffer is full of nonzero bytes. -/
def sampleArgFullName : reil_arg_t :=
  ⟨.A_REG, .U32, 0, List.replicate 15 97⟩

/-- Witness for C9: with a buffer of fifteen nonzero bytes, `name()` decodes
all fifteen bytes. -/
theorem name_no_zero_whole_buffer_witness :
    ReilArg.name sampleArgFullName = utf8Decode (List.replicate 15 97)
    ∧ utf8Decode (List.replicate 15 97) = some (List.replicate 15 97) :=
  ⟨name_no_zero_whole_buffer sampleArgFullName (by decide) (by decide),
   by decide⟩

/-- Mapping from the wrapper architecture enum to the engine identifier — the
match at the top of Reil::new. -/
def selectArch : ReilArch → reil_arch_t
  | .X86 => .ARCH_X86
  | .ARM => .ARCH_ARM

/-- A constructed disassembler session holding the engine handle returned by
reil_init (the `reil_handle` field of `Reil`). Pointers are modelled as
natural numbers with 0 standing for null. -/
structure Reil where
  reil_handle : Nat
deriving DecidableEq, Repr

/-- Reil::new — the opaque engine call reil_init is modelled by the function
`init` from the selected engine architecture to the handle it returns (0 for
null). A null handle yields `none`, and otherwise the session wraps the
returned handle; the handler and context are passed through to the engine and
play no role in the wrapper's own control flow. -/
def Reil.new (init : reil_arch_t → Nat) (arch : ReilArch) : Option Reil :=
  let reil := init (selectArch arch)
  if reil = 0 then
    none
  else
    some ⟨reil⟩

/-- C7: for every architecture (and any handler and context, which the wrapper
only forwards), the constructor returns absence, not an exception, exactly when
the engine init call yields a null handle; on success the returned session
holds the engine handle produced by the init call, and on failure no session
value exists at all, so no resource is held and no destructor obligation is
created. -/
theorem new_none_iff_null_handle (init : reil_arch_t → Nat) (arch : ReilArch) :
    (Reil.new init arch = none ↔ init (selectArch arch) = 0)
    ∧ (∀ s : Reil, Reil.new init arch = some s →
        s.reil_handle = init (selectArch arch)) := by
  constructor
  · simp only [Reil.new]
    split <;> simp_all
  · intro s hs
    simp only [Reil.new] at hs
    by_cases h : init (selectArch arch) = 0
    · simp [h] at hs
    · simp [h] at hs
      rw [← hs]

/-- Witness for C7: an init yielding null makes construction fail, and an init
yielding handle 7 makes the session hold handle 7. -/
theorem new_none_iff_null_handle_witness :
    Reil.new (fun _ => 0) ReilArch.X86 = none
    ∧ (⟨7⟩ : Reil).reil_handle = 7 :=
  ⟨(new_none_iff_null_handle (fun _ => 0) ReilArch.X86).1.mpr rfl,
   (new_none_iff_null_handle (fun _ => 7) ReilArch.X86).2 ⟨7⟩ rfl⟩

/-- Lifecycle states of a session: before construction, active after a
successful construction, closed after the handle release ran. -/
inductive LifeState
  | Uninit
  | Active
  | Closed
deriving DecidableEq, Repr

/-- Lifecycle events of a session: successful construction, a translate call,
and the release of the engine handle — the single reil_close call made by
Drop::drop for Reil. -/
inductive LifeEvent
  | constructOk
  | translateCall
  | release
deriving DecidableEq, Repr

/-- Lifecycle step relation of a session as the wrapper's single-ownership
rules enforce it: construction moves Uninit to Active, translate calls keep an
active session active, and the drop releases the handle, moving Active to the
terminal Closed state. Release is enabled only in Active. -/
inductive LifeStep : LifeState → LifeEvent → LifeState → Prop
  | construct_ok : LifeStep .Uninit .constructOk .Active
  | translate : LifeStep .Active .translateCall .Active
  | close : LifeStep .Active .release .Closed

/-- A run of the session lifecycle: a list of events stepping from one state
to another. -/
inductive LifeRun : LifeState → List LifeEvent → LifeState → Prop
  | nil (s : LifeState) : LifeRun s [] s
  | cons {s t u : LifeState} {e : LifeEvent} {tr : List LifeEvent} :
      LifeStep s e t → LifeRun t tr u → LifeRun s (e :: tr) u

/-- Counting releases along lifecycle runs: a run that stays Active has none,
a run reaching Closed has exactly one, no run from Active has more than one,
and Closed is terminal. -/
theorem run_release_count {s : LifeState} {tr : List LifeEvent} {u : LifeState}
    (h : LifeRun s tr u) :
    (s = .Active →
      (u = .Active → tr.count .release = 0)
      ∧ (u = .Closed → tr.count .release = 1)
      ∧ tr.count .release ≤ 1)
    ∧ (s = .Closed → tr = [] ∧ u = .Closed) := by
  induction h with
  | nil s =>
    refine ⟨fun hs => ?_, fun hs => ⟨rfl, hs⟩⟩
    subst hs
    refine ⟨fun _ => rfl, fun hc => absurd hc (by decide), by simp⟩
  | cons hstep hrun ih =>
    cases hstep with
    | construct_ok =>
      exact ⟨fun hs => absurd hs (by decide), fun hs => absurd hs (by decide)⟩
    | translate =>
      refine ⟨fun _ => ?_, fun hs => absurd hs (by decide)⟩
      have ha := ih.1 rfl
      have hcount : ∀ l : List LifeEvent,
          (LifeEvent.translateCall :: l).count LifeEvent.release
            = l.count LifeEvent.release := by
        intro l
        simp [List.count_cons]
      rw [hcount]
      exact ⟨ha.1, ha.2.1, ha.2.2⟩
    | close =>
      refine ⟨fun _ => ?_, fun hs => absurd hs (by decide)⟩
      obtain ⟨htr, hu⟩ := ih.2 rfl
      subst htr
      subst hu
      refine ⟨fun hc => absurd hc (by decide), fun _ => by decide, by decide⟩

/-- C8: the engine handle of a successfully constructed session is released
exactly once — every lifecycle run from Active that reaches Closed contains
exactly one release event, no run from Active ever contains more than one,
and no step (in particular no second release) leaves the Closed state. -/
theorem release_exactly_once {tr : List LifeEvent} {u : LifeState}
    (h : LifeRun .Active tr u) :
    tr.count .release ≤ 1
    ∧ (u = .Closed → tr.count .release = 1)
    ∧ (∀ (e : LifeEvent) (t : LifeState), ¬ LifeStep .Closed e t) := by
  have ha := (run_release_count h).1 rfl
  exact ⟨ha.2.2, ha.2.1, fun e t hstep => by cases hstep⟩

/-- Witness for C8: the concrete run translate-then-drop from Active to Closed
contains exactly one release. -/
theorem release_exactly_once_witness :
    [LifeEvent.translateCall, LifeEvent.release].count LifeEvent.release = 1 := by
  have hrun : LifeRun .Active [.translateCall, .release] .Closed :=
    .cons .translate (.cons .close (.nil _))
  exact (release_exactly_once hrun).2.1 rfl
